import Mathlib

/-!
Verification development for the `resource` package of the openwar archive
loader (`src/resource/archive.go`).  The Go code is shallowly embedded:
machine integers become `Nat` with explicit `% 2^32` where 32-bit wraparound
matters, the `io.ReadSeeker` becomes an explicit `ByteStream` (the semantics
of `bytes.Reader` / a regular file: `Read` returns `min(requested, remaining)`
bytes with a nil error, or `(0, EOF)` at end of data; `Seek` with whence 0
sets the absolute position), and fallible operations return their Go
`(value, error)` pair shape explicitly.

The external filename manifest `fileMap` is referenced by `archive.go` but its
defining file is not part of the sources; following the specification it is
modelled as a caller-supplied ordered list of strings (empty string meaning
"no known name for this slot").  Likewise the package-level flag
`LoadUnsupported` is threaded as an explicit boolean parameter.
-/

/-- Errors produced by the loader; Go `error` values are collapsed to this
closed enumeration (identity of the error only matters up to these cases). -/
inductive GoError where
  | eof
  | unexpectedEOF
  | unknownVersion
  | unsupportedVersion
  | tableMappingMismatch
  deriving DecidableEq, Repr

/-- The byte source: an immutable byte array plus a current read position,
the state of a `bytes.Reader` (or an opened file) over known contents. -/
structure ByteStream where
  data : List Nat
  pos : Nat
  deriving DecidableEq, Repr

/-- Semantics of one `Read(p)` call with `n = p.length` on a `bytes.Reader`:
at end of data it returns no bytes and `io.EOF`; otherwise it returns
`min n remaining` bytes and advances the position, with a nil error. -/
def streamRead (s : ByteStream) (n : Nat) : List Nat × Option GoError × ByteStream :=
  if s.data.length ≤ s.pos then ([], some GoError.eof, s)
  else
    let chunk := (s.data.drop s.pos).take n
    (chunk, none, ⟨s.data, s.pos + chunk.length⟩)

/-- Semantics of `io.ReadFull` (used by `binary.Read`): read exactly `n`
bytes or fail (`io.EOF` when nothing was available, `io.ErrUnexpectedEOF`
when only part was). -/
def readFull (s : ByteStream) (n : Nat) : List Nat × Option GoError × ByteStream :=
  let (bs, _, s') := streamRead s n
  if bs.length = n then (bs, none, s')
  else (bs, some (if bs.length = 0 then GoError.eof else GoError.unexpectedEOF), s')

/-- Little-endian decoding of two bytes (`binary.LittleEndian` on `uint16`). -/
def le16 (bs : List Nat) : Nat :=
  bs.getD 0 0 + 256 * bs.getD 1 0

/-- Little-endian decoding of four bytes (`binary.LittleEndian` on `uint32`). -/
def le32 (bs : List Nat) : Nat :=
  bs.getD 0 0 + 256 * bs.getD 1 0 + 65536 * bs.getD 2 0 + 16777216 * bs.getD 3 0

/-- The body of `readByte` (archive.go lines 213-219) as a function of the
outcome of the single `reader.Read(b[:])` call: `n` is the byte count
returned, `err` the error, `v` the content of `b[0]` after the call (`0`
when the reader wrote nothing, since `b` starts zeroed).  Mirrors
`if n, err := reader.Read(b[:]); n != 1 || err != nil { return 0, err }`. -/
def readByteFrom (n : Nat) (err : Option GoError) (v : Nat) : Nat × Option GoError :=
  if n ≠ 1 ∨ err ≠ none then (0, err) else (v, none)

/-- `readByte` applied to a `ByteStream` source. -/
def readByteS (s : ByteStream) : (Nat × Option GoError) × ByteStream :=
  let (bs, err, s') := streamRead s 1
  (readByteFrom bs.length err (bs.getD 0 0), s')

/-- `readShort` (archive.go lines 221-227): `binary.Read` of a little-endian
`uint16`, i.e. `io.ReadFull` of two bytes. -/
def readShortS (s : ByteStream) : (Nat × Option GoError) × ByteStream :=
  match readFull s 2 with
  | (bs, none, s') => ((le16 bs, none), s')
  | (_, some e, s') => ((0, some e), s')

/-- The fixed dictionary capacity `bufferSize` of `uncompressData`. -/
def bufferSize : Nat := 4096

/-- State of one `uncompressData` call: the byte source, the 4096-byte
circular dictionary `buffer`, the counters `numWrite` and `numRead`, and the
output accumulated in `backingBuffer`. -/
structure UState where
  stream : ByteStream
  buffer : List Nat
  numWrite : Nat
  numRead : Nat
  out : List Nat
  deriving DecidableEq, Repr

/-- The inner back-reference copy loop of `uncompressData`
(`for m := uint16(0); m <= numBytes+2; m++ { ... }`), with `cnt` iterations
left and `m` the current loop index; `off` is the (already reduced)
dictionary read position.  Each step copies
`buffer[(off+m) % bufferSize]` to `buffer[numWrite % bufferSize]`, appends it
to the output and increments `numWrite`.  Note that this loop performs all
its iterations unconditionally: it does not consult the target size. -/
def copyLoop (off : Nat) : Nat → Nat → List Nat → Nat → List Nat → List Nat × Nat × List Nat
  | 0, _, buf, nw, out => (buf, nw, out)
  | cnt + 1, m, buf, nw, out =>
    let b := buf.getD ((off + m) % bufferSize) 0
    copyLoop off cnt (m + 1) (buf.set (nw % bufferSize) b) (nw + 1) (out ++ [b])

/-- The per-control-byte bit loop of `uncompressData`
(`for i := 0; i < 8 && numWrite != fileSize; i++`), with `k` bits remaining
and `cmask` the shifted control byte.  Bit 1 copies one literal input byte;
bit 0 reads a 16-bit code, splits it as `numBytes = code / 4096`,
`off = code % 4096`, and runs `copyLoop` for `numBytes + 3` steps. -/
def bitLoop (fileSize : Nat) : Nat → Nat → UState → UState × Option GoError
  | 0, _, st => (st, none)
  | k + 1, cmask, st =>
    if st.numWrite = fileSize then (st, none)
    else if cmask % 2 = 1 then
      match readByteS st.stream with
      | ((b, none), s') =>
        bitLoop fileSize k (cmask / 2)
          ⟨s', st.buffer.set (st.numWrite % bufferSize) b, st.numWrite + 1,
            st.numRead + 1, st.out ++ [b]⟩
      | ((_, some e), s') =>
        (⟨s', st.buffer, st.numWrite, st.numRead + 1, st.out⟩, some e)
    else
      match readShortS st.stream with
      | ((code, none), s') =>
        let numBytes := code / bufferSize
        let off := code % bufferSize
        match copyLoop off (numBytes + 3) 0 st.buffer st.numWrite st.out with
        | (buf, nw, out) =>
          bitLoop fileSize k (cmask / 2) ⟨s', buf, nw, st.numRead + 2, out⟩
      | ((_, some e), s') =>
        (⟨s', st.buffer, st.numWrite, st.numRead + 2, st.out⟩, some e)

/-- The outer loop of `uncompressData` (`for numRead < dataSize { ... }`):
read a control byte, then run the 8-bit loop.  The loop terminates because
`numRead` strictly increases each iteration; structurally this is expressed
with a fuel argument, instantiated with `dataSize` (sufficient, and proved
irrelevant beyond `dataSize - numRead` below). -/
def uncompressLoop (fileSize dataSize : Nat) : Nat → UState → UState × Option GoError
  | 0, st => (st, none)
  | fuel + 1, st =>
    if st.numRead < dataSize then
      match readByteS st.stream with
      | ((c, none), s') =>
        match bitLoop fileSize 8 c ⟨s', st.buffer, st.numWrite, st.numRead + 1, st.out⟩ with
        | (st2, none) => uncompressLoop fileSize dataSize fuel st2
        | (st2, some e) => (st2, some e)
      | ((_, some e), s') =>
        (⟨s', st.buffer, st.numWrite, st.numRead + 1, st.out⟩, some e)
    else (st, none)

/-- `uncompressData` (archive.go lines 235-292): decode from `s`, with
output-length target `fileSize` and compressed-input budget `dataSize`.
The dictionary is freshly allocated and zero-initialised
(`buffer := make([]byte, bufferSize)`), the counters start at zero and the
backing output buffer empty.  On success the accumulated output is returned
with a nil error; on a read failure the Go code returns the dictionary
slice together with the error. -/
def uncompressData (s : ByteStream) (fileSize dataSize : Nat) :
    (List Nat × Option GoError) × ByteStream :=
  match uncompressLoop fileSize dataSize dataSize ⟨s, List.replicate bufferSize 0, 0, 0, []⟩ with
  | (st, none) => ((st.out, none), st.stream)
  | (st, some e) => ((st.buffer, some e), st.stream)

/-- The DOS retail magic `{0x18, 0x0, 0x0, 0x0}`. -/
def dosRetail : List Nat := [0x18, 0x0, 0x0, 0x0]

/-- The DOS shareware magic `{0x19, 0x0, 0x0, 0x0}`. -/
def dosShareware : List Nat := [0x19, 0x0, 0x0, 0x0]

/-- The Mac retail magic `{0x0, 0x0, 0x0, 0x1A}`. -/
def macRetail : List Nat := [0x0, 0x0, 0x0, 0x1A]

/-- The Mac shareware magic `{0x0, 0x0, 0x0, 0x19}`. -/
def macShareware : List Nat := [0x0, 0x0, 0x0, 0x19]

/-- The `switch archiveID` of `OpenArchiveFrom` (archive.go lines 102-117):
returns the string assigned to `arch.Type` (the zero value `""` when no case
assigns one) together with the error outcome.  DOS magics proceed with a nil
error; Mac magics assign their label and then fail with
`ErrUnsupportedVersion`; anything else fails with `unknown version`. -/
def detectVariant (magic : List Nat) : String × Option GoError :=
  if magic = dosRetail then ("DOS Retail", none)
  else if magic = dosShareware then ("DOS Shareware", none)
  else if magic = macRetail then ("Mac Retail", some GoError.unsupportedVersion)
  else if magic = macShareware then ("Mac Shareware", some GoError.unsupportedVersion)
  else ("", some GoError.unknownVersion)

/-- Unsigned 32-bit subtraction `a - b` on `Nat` representatives
(wraparound modulo `2^32`). -/
def sub32 (a b : Nat) : Nat :=
  (a + 4294967296 - b % 4294967296) % 4294967296

/-- `isPlaceHolder` (archive.go lines 197-211): offset `0` or `0xFFFFFFFF`
is always a placeholder; the last slot is otherwise never one; otherwise a
slot is a placeholder exactly when its offset equals the following table
offset minus one (uint32 arithmetic). -/
def isPlaceHolder (tab : List Nat) (offset : Nat) (i : Nat) : Bool :=
  if offset = 0x0 ∨ offset = 0xFFFFFFFF then true
  else if i = tab.length - 1 then false
  else if offset = sub32 (tab.getD (i + 1) 0) 1 then true
  else false

/-- The compression test of archive.go line 156: `size>>24 == 0x20` applied
to the raw 32-bit header word. -/
def entryCompressed (h : Nat) : Bool :=
  h >>> 24 == 0x20

/-- The size mask of archive.go line 157: `size &= 0x00FFFFFF` applied to
the raw 32-bit header word. -/
def entrySize (h : Nat) : Nat :=
  Nat.land h 0x00FFFFFF

/-- The payload-length computation of archive.go lines 159-165: the delta to
the next table offset (or from the container size `sz` for the last slot),
then reduced by 4, all in uint32 arithmetic (`uint32(sz)` truncates). -/
def dataLengthOf (tab : List Nat) (sz : Nat) (i : Nat) : Nat :=
  sub32
    (if i = tab.length - 1 then sub32 (sz % 4294967296) (tab.getD i 0)
     else sub32 (tab.getD (i + 1) 0) (tab.getD i 0))
    4

/-- Go map assignment `m[k] = v` on an association-list model: replace the
value of an existing key, else append the new binding. -/
def mapInsert (m : List (String × List Nat)) (k : String) (v : List Nat) :
    List (String × List Nat) :=
  match m with
  | [] => [(k, v)]
  | (k', v') :: rest => if k' = k then (k, v) :: rest else (k', v') :: mapInsert rest k v

/-- The `Archive` struct: the variant label (`Type` in Go) and the
filename → decoded-bytes map. -/
structure Archive where
  vtype : String
  files : List (String × List Nat)
  deriving DecidableEq, Repr

/-- One iteration of the per-slot loop of `OpenArchiveFrom` (the body of
the `for i, offset := range fileTable` loop, archive.go lines 137-192) at
slot `i`: a placeholder slot is skipped (`continue` with unchanged state);
otherwise the loader seeks to the slot's offset, reads the 32-bit header,
derives the compression flag, decoded size and payload length, resolves the
filename (skipping the slot when it is empty and `lu` is off, else
synthesizing `DATA.WAR.<i>`), decodes the data and stores it in the map.
`Except.ok` carries the stream and map for the next iteration; `Except.error`
carries an early `return` pair verbatim — note the uncompressed branch
returns `(nil, err)` as the Go does, so a short read with a nil error
produces a nil error. -/
def entryStep (fm : List String) (lu : Bool) (tab : List Nat) (sz : Nat) (i : Nat)
    (s : ByteStream) (files : List (String × List Nat)) :
    Except (Option (List (String × List Nat)) × Option GoError)
      (ByteStream × List (String × List Nat)) :=
  let offset := tab.getD i 0
  if isPlaceHolder tab offset i then .ok (s, files)
  else
    match readFull ⟨s.data, offset⟩ 4 with
    | (_, some e, _) => .error (none, some e)
    | (hbs, none, s2) =>
      let h := le32 hbs
      let isCompressed := entryCompressed h
      let size := entrySize h
      let dataLength := dataLengthOf tab sz i
      let fileName := fm.getD i ""
      if fileName = "" ∧ lu = false then .ok (s2, files)
      else
        let fileName := if fileName = "" then "DATA.WAR." ++ toString i else fileName
        if isCompressed then
          match uncompressData s2 size dataLength with
          | ((data, none), s3) => .ok (s3, mapInsert files fileName data)
          | ((_, some e), _) => .error (none, some e)
        else
          match streamRead s2 size with
          | (bs, err, s3) =>
            if bs.length ≠ size ∨ err ≠ none then .error (none, err)
            else .ok (s3, mapInsert files fileName bs)

/-- The per-slot loop of `OpenArchiveFrom` (archive.go lines 137-192) over
slots `i, i+1, …` with `n` slots left to process; `fm` is the (modelled)
external manifest `fileMap`, `lu` the `LoadUnsupported` flag, `tab` the file
table and `sz` the container size.  Runs `entryStep` on each slot in order;
an early `return` from the body ends the whole load with that result. -/
def entryLoop (fm : List String) (lu : Bool) (tab : List Nat) (sz : Nat) :
    Nat → Nat → ByteStream → List (String × List Nat) →
    Option (List (String × List Nat)) × Option GoError
  | _, 0, _, files => (some files, none)
  | i, n + 1, s, files =>
    match entryStep fm lu tab sz i s files with
    | .ok (s', files') => entryLoop fm lu tab sz (i + 1) n s' files'
    | .error r => r

/-- The file-table read loop of `OpenArchiveFrom` (archive.go lines 130-135):
`n` little-endian 32-bit offsets in order; the first read error aborts. -/
def readTable (s : ByteStream) : Nat → List Nat × Option GoError × ByteStream
  | 0 => ([], none, s)
  | n + 1 =>
    match readFull s 4 with
    | (bs, none, s') =>
      match readTable s' n with
      | (tl, e, s'') => (le32 bs :: tl, e, s'')
    | (_, some e, s') => ([], some e, s')

/-- The prefix of `OpenArchiveFrom` before the per-slot loop (archive.go
lines 89-135): read the 4-byte magic (`fp.Read` with the unread tail of the
zeroed `archiveID` array remaining zero), classify the variant, read the
little-endian 32-bit file count, check it against the manifest length, and
read the file table.  Returns the variant label, the table and the stream
position after it, or the first error. -/
def readArchiveHeader (fm : List String) (s : ByteStream) :
    Except GoError (String × List Nat × ByteStream) :=
  match streamRead s 4 with
  | (_, some e, _) => .error e
  | (bs, none, s1) =>
    let magic := bs ++ List.replicate (4 - bs.length) 0
    match detectVariant magic with
    | (_, some e) => .error e
    | (vtype, none) =>
      match readFull s1 4 with
      | (_, some e, _) => .error e
      | (nbs, none, s2) =>
        let numFiles := le32 nbs
        if numFiles ≠ fm.length then .error GoError.tableMappingMismatch
        else
          match readTable s2 numFiles with
          | (_, some e, _) => .error e
          | (tab, none, s3) => .ok (vtype, tab, s3)

/-- `OpenArchiveFrom` (archive.go lines 89-195): parse the header and file
table, then run the per-slot loop over all slots starting from an empty
`Files` map.  Returns the Go `(*Archive, error)` pair: `(some arch, none)`
on success, `(none, some e)` on every explicit error path — except that the
short-read path inside the loop propagates the possibly-nil error it
observed. -/
def OpenArchiveFrom (fm : List String) (lu : Bool) (s : ByteStream) (sz : Nat) :
    Option Archive × Option GoError :=
  match readArchiveHeader fm s with
  | .error e => (none, some e)
  | .ok (vtype, tab, s3) =>
    match entryLoop fm lu tab sz 0 tab.length s3 [] with
    | (some files, none) => (some ⟨vtype, files⟩, none)
    | (_, e) => (none, e)

/-! ### Adequacy of the fuel-based outer decompression loop -/

/-- The copy loop never touches the read counter; only `buffer`, `numWrite`
and the output change (its arguments do not even include `numRead`). -/
theorem copyLoop_numWrite (off : Nat) :
    ∀ (cnt m : Nat) (buf : List Nat) (nw : Nat) (out : List Nat),
      (copyLoop off cnt m buf nw out).2.1 = nw + cnt := by
  intro cnt
  induction cnt with
  | zero => intro m buf nw out; simp [copyLoop]
  | succ cnt ih =>
    intro m buf nw out
    rw [copyLoop, ih]
    omega

/-- The bit loop never decreases `numRead`. -/
theorem bitLoop_numRead_le (fileSize : Nat) :
    ∀ (k cmask : Nat) (st : UState),
      st.numRead ≤ (bitLoop fileSize k cmask st).1.numRead := by
  intro k
  induction k with
  | zero => intro cmask st; exact Nat.le_refl _
  | succ k ih =>
    intro cmask st
    rw [bitLoop]
    split
    · exact Nat.le_refl _
    · split
      · rcases hr : readByteS st.stream with ⟨⟨b, err⟩, s'⟩
        cases err with
        | none =>
          simp only [hr]
          exact Nat.le_trans (Nat.le_succ _)
            (ih (cmask / 2) ⟨s', st.buffer.set (st.numWrite % bufferSize) b,
              st.numWrite + 1, st.numRead + 1, st.out ++ [b]⟩)
        | some e => simp only [hr]; exact Nat.le_succ _
      · rcases hr : readShortS st.stream with ⟨⟨code, err⟩, s'⟩
        cases err with
        | none =>
          simp only [hr]
          rcases hc : copyLoop (code % bufferSize) (code / bufferSize + 3) 0
              st.buffer st.numWrite st.out with ⟨buf, nw, out⟩
          simp only [hc]
          exact Nat.le_trans (Nat.le_add_right _ 2)
            (ih (cmask / 2) ⟨s', buf, nw, st.numRead + 2, out⟩)
        | some e => simp only [hr]; exact Nat.le_add_right _ 2

/-- Fuel irrelevance for the outer loop: any fuel of at least
`dataSize - numRead` gives the same result, so instantiating the fuel with
`dataSize` (as `uncompressData` does, starting from `numRead = 0`) computes
exactly the Go `for numRead < dataSize` loop. -/
theorem uncompressLoop_fuel_irrel (fileSize dataSize : Nat) :
    ∀ (f1 f2 : Nat) (st : UState), dataSize - st.numRead ≤ f1 →
      dataSize - st.numRead ≤ f2 →
      uncompressLoop fileSize dataSize f1 st = uncompressLoop fileSize dataSize f2 st := by
  intro f1
  induction f1 with
  | zero =>
    intro f2 st h1 _
    have hge : ¬ st.numRead < dataSize := by omega
    cases f2 with
    | zero => rfl
    | succ f2 => rw [uncompressLoop, uncompressLoop, if_neg hge]
  | succ f1 ih =>
    intro f2 st h1 h2
    cases f2 with
    | zero =>
      have hge : ¬ st.numRead < dataSize := by omega
      rw [uncompressLoop, uncompressLoop, if_neg hge]
    | succ f2 =>
      rw [uncompressLoop, uncompressLoop]
      by_cases hlt : st.numRead < dataSize
      · rw [if_pos hlt, if_pos hlt]
        rcases hr : readByteS st.stream with ⟨⟨c, err⟩, s'⟩
        cases err with
        | none =>
          simp only
          rcases hb : bitLoop fileSize 8 c
              ⟨s', st.buffer, st.numWrite, st.numRead + 1, st.out⟩ with ⟨st2, err2⟩
          cases err2 with
          | none =>
            simp only
            have hmono :=
              bitLoop_numRead_le fileSize 8 c
                ⟨s', st.buffer, st.numWrite, st.numRead + 1, st.out⟩
            rw [hb] at hmono
            exact ih f2 st2 (by simp at hmono; omega) (by simp at hmono; omega)
          | some e => rfl
        | some e => rfl
      · rw [if_neg hlt, if_neg hlt]

/-! ### Keys of the association-list model of the Go map -/

/-- After `m[k] = v` the key `k` is present. -/
theorem mapInsert_mem_self (m : List (String × List Nat)) (k : String) (v : List Nat) :
    k ∈ (mapInsert m k v).map Prod.fst := by
  induction m with
  | nil => simp [mapInsert]
  | cons p rest ih =>
    rcases p with ⟨k', v'⟩
    rw [mapInsert]
    by_cases h : k' = k
    · simp [h]
    · simp only [if_neg h, List.map_cons, List.mem_cons]
      exact Or.inr ih

/-- Assignment never removes keys. -/
theorem mapInsert_mem_of_mem (m : List (String × List Nat)) (k : String) (v : List Nat)
    (k' : String) (h : k' ∈ m.map Prod.fst) : k' ∈ (mapInsert m k v).map Prod.fst := by
  induction m with
  | nil => simp at h
  | cons p rest ih =>
    rcases p with ⟨k0, v0⟩
    rw [mapInsert]
    by_cases h0 : k0 = k
    · simp only [if_pos h0]
      simp only [List.map_cons, List.mem_cons] at h ⊢
      rcases h with h | h
      · exact Or.inl (h0 ▸ h)
      · exact Or.inr h
    · simp only [if_neg h0]
      simp only [List.map_cons, List.mem_cons] at h ⊢
      rcases h with h | h
      · exact Or.inl h
      · exact Or.inr (ih h)

/-- Every key after an assignment is the assigned key or an old key. -/
theorem mapInsert_mem_elim (m : List (String × List Nat)) (k : String) (v : List Nat)
    (k' : String) (h : k' ∈ (mapInsert m k v).map Prod.fst) :
    k' = k ∨ k' ∈ m.map Prod.fst := by
  induction m with
  | nil => simpa [mapInsert] using h
  | cons p rest ih =>
    rcases p with ⟨k0, v0⟩
    rw [mapInsert] at h
    by_cases h0 : k0 = k
    · simp only [if_pos h0] at h
      simp only [List.map_cons, List.mem_cons] at h ⊢
      rcases h with h | h
      · exact Or.inl h
      · exact Or.inr (Or.inr h)
    · simp only [if_neg h0] at h
      simp only [List.map_cons, List.mem_cons] at h ⊢
      rcases h with h | h
      · exact Or.inr (Or.inl h)
      · rcases ih h with h1 | h1
        · exact Or.inl h1
        · exact Or.inr (Or.inr h1)

/-! ### Invariants of the per-slot loop -/

theorem entryStep_ok_cases (fm : List String) (lu : Bool) (tab : List Nat) (sz : Nat)
    (i : Nat) (s : ByteStream) (files : List (String × List Nat))
    (s' : ByteStream) (files' : List (String × List Nat))
    (h : entryStep fm lu tab sz i s files = .ok (s', files')) :
    files' = files ∨
    (isPlaceHolder tab (tab.getD i 0) i = false ∧
      ∃ data,
        (fm.getD i "" ≠ "" ∧ files' = mapInsert files (fm.getD i "") data) ∨
        (lu = true ∧ fm.getD i "" = "" ∧
          files' = mapInsert files ("DATA.WAR." ++ toString i) data)) := by
  rw [entryStep] at h
  by_cases hph : isPlaceHolder tab (tab.getD i 0) i
  · simp only [hph, if_true] at h
    injection h with h
    injection h with _ h
    exact Or.inl h.symm
  · simp only [hph, if_false, Bool.false_eq_true] at h
    rcases hrf : readFull ⟨s.data, tab.getD i 0⟩ 4 with ⟨hbs, err, s2⟩
    rw [hrf] at h
    cases err with
    | some e => simp at h
    | none =>
      simp only at h
      by_cases hname : fm.getD i "" = "" ∧ lu = false
      · rw [if_pos hname] at h
        injection h with h
        injection h with _ h
        exact Or.inl h.symm
      · rw [if_neg hname] at h
        refine Or.inr ⟨by simpa using hph, ?_⟩
        by_cases hcomp : entryCompressed (le32 hbs) = true
        · rw [if_pos hcomp] at h
          rcases hu : uncompressData s2 (entrySize (le32 hbs)) (dataLengthOf tab sz i)
            with ⟨⟨data, uerr⟩, s3⟩
          rw [hu] at h
          cases uerr with
          | some e => simp at h
          | none =>
            simp only at h
            injection h with h
            injection h with _ h
            refine ⟨data, ?_⟩
            by_cases hempty : fm.getD i "" = ""
            · have hlu : lu = true := by
                cases lu with
                | false => exact absurd ⟨hempty, rfl⟩ hname
                | true => rfl
              rw [if_pos hempty] at h
              exact Or.inr ⟨hlu, hempty, h.symm⟩
            · rw [if_neg hempty] at h
              exact Or.inl ⟨hempty, h.symm⟩
        · rw [if_neg hcomp] at h
          rcases hsr : streamRead s2 (entrySize (le32 hbs)) with ⟨bs2, err2, s3⟩
          rw [hsr] at h
          simp only at h
          by_cases hshort : bs2.length ≠ entrySize (le32 hbs) ∨ err2 ≠ none
          · rw [if_pos hshort] at h
            simp at h
          · rw [if_neg hshort] at h
            injection h with h
            injection h with _ h
            refine ⟨bs2, ?_⟩
            by_cases hempty : fm.getD i "" = ""
            · have hlu : lu = true := by
                cases lu with
                | false => exact absurd ⟨hempty, rfl⟩ hname
                | true => rfl
              rw [if_pos hempty] at h
              exact Or.inr ⟨hlu, hempty, h.symm⟩
            · rw [if_neg hempty] at h
              exact Or.inl ⟨hempty, h.symm⟩

/-- With `LoadUnsupported` on, a successful step at a present slot with an
empty manifest name stores its data under the synthesized name. -/
theorem entryStep_synth (fm : List String) (tab : List Nat) (sz : Nat)
    (i : Nat) (s : ByteStream) (files : List (String × List Nat))
    (s' : ByteStream) (files' : List (String × List Nat))
    (hph : isPlaceHolder tab (tab.getD i 0) i = false)
    (hname : fm.getD i "" = "")
    (h : entryStep fm true tab sz i s files = .ok (s', files')) :
    ∃ data, files' = mapInsert files ("DATA.WAR." ++ toString i) data := by
  rw [entryStep] at h
  rw [hph] at h
  simp only [Bool.false_eq_true, if_false] at h
  rcases hrf : readFull ⟨s.data, tab.getD i 0⟩ 4 with ⟨hbs, err, s2⟩
  rw [hrf] at h
  cases err with
  | some e => simp at h
  | none =>
    simp only at h
    rw [if_neg (by simp [hname])] at h
    rw [if_pos hname] at h
    by_cases hcomp : entryCompressed (le32 hbs) = true
    · rw [if_pos hcomp] at h
      rcases hu : uncompressData s2 (entrySize (le32 hbs)) (dataLengthOf tab sz i)
        with ⟨⟨data, uerr⟩, s3⟩
      rw [hu] at h
      cases uerr with
      | some e => simp at h
      | none =>
        simp only at h
        injection h with h
        injection h with _ h
        exact ⟨data, h.symm⟩
    · rw [if_neg hcomp] at h
      rcases hsr : streamRead s2 (entrySize (le32 hbs)) with ⟨bs2, err2, s3⟩
      rw [hsr] at h
      simp only at h
      by_cases hshort : bs2.length ≠ entrySize (le32 hbs) ∨ err2 ≠ none
      · rw [if_pos hshort] at h
        simp at h
      · rw [if_neg hshort] at h
        injection h with h
        injection h with _ h
        exact ⟨bs2, h.symm⟩

/-- Every early `return` from the loop body carries a nil `*Archive`. -/
theorem entryStep_error_none (fm : List String) (lu : Bool) (tab : List Nat) (sz : Nat)
    (i : Nat) (s : ByteStream) (files : List (String × List Nat))
    (r : Option (List (String × List Nat)) × Option GoError)
    (h : entryStep fm lu tab sz i s files = .error r) : r.1 = none := by
  rw [entryStep] at h
  by_cases hph : isPlaceHolder tab (tab.getD i 0) i
  · rw [if_pos hph] at h
    exact Except.noConfusion h
  · simp only [hph, Bool.false_eq_true, if_false] at h
    rcases hrf : readFull ⟨s.data, tab.getD i 0⟩ 4 with ⟨hbs, err, s2⟩
    rw [hrf] at h
    cases err with
    | some e =>
      clear hrf
      injection h with h
      rw [← h]
    | none =>
      simp only at h
      by_cases hname : fm.getD i "" = "" ∧ lu = false
      · rw [if_pos hname] at h
        exact Except.noConfusion h
      · rw [if_neg hname] at h
        by_cases hcomp : entryCompressed (le32 hbs) = true
        · rw [if_pos hcomp] at h
          rcases hu : uncompressData s2 (entrySize (le32 hbs)) (dataLengthOf tab sz i)
            with ⟨⟨data, uerr⟩, s3⟩
          rw [hu] at h
          cases uerr with
          | some e =>
            clear hu hrf
            injection h with h
            rw [← h]
          | none =>
            clear hu hrf
            injection h
        · rw [if_neg hcomp] at h
          rcases hsr : streamRead s2 (entrySize (le32 hbs)) with ⟨bs2, err2, s3⟩
          rw [hsr] at h
          simp only at h
          by_cases hshort : bs2.length ≠ entrySize (le32 hbs) ∨ err2 ≠ none
          · rw [if_pos hshort] at h
            clear hsr hrf
            injection h with h
            rw [← h]
          · rw [if_neg hshort] at h
            clear hsr hrf
            injection h

/-- A successful step never drops keys from the map. -/
theorem entryStep_keys_mono (fm : List String) (lu : Bool) (tab : List Nat) (sz : Nat)
    (i : Nat) (s : ByteStream) (files : List (String × List Nat))
    (s' : ByteStream) (files' : List (String × List Nat))
    (h : entryStep fm lu tab sz i s files = .ok (s', files'))
    (k : String) (hk : k ∈ files.map Prod.fst) : k ∈ files'.map Prod.fst := by
  rcases entryStep_ok_cases fm lu tab sz i s files s' files' h with he | ⟨_, data, hc | hc⟩
  · exact he ▸ hk
  · exact hc.2 ▸ mapInsert_mem_of_mem _ _ _ _ hk
  · exact hc.2.2 ▸ mapInsert_mem_of_mem _ _ _ _ hk

/-- Keys already stored survive the rest of the loop. -/
theorem entryLoop_keys_mono (fm : List String) (lu : Bool) (tab : List Nat) (sz : Nat) :
    ∀ (n i : Nat) (s : ByteStream) (files out : List (String × List Nat)),
      entryLoop fm lu tab sz i n s files = (some out, none) →
      ∀ k, k ∈ files.map Prod.fst → k ∈ out.map Prod.fst := by
  intro n
  induction n with
  | zero =>
    intro i s files out h k hk
    rw [entryLoop] at h
    injection h with h1 _
    injection h1 with h1
    exact h1 ▸ hk
  | succ n ih =>
    intro i s files out h k hk
    rw [entryLoop] at h
    rcases hs : entryStep fm lu tab sz i s files with r | ⟨s1, files1⟩
    · rw [hs] at h
      simp only at h
      have hn := entryStep_error_none fm lu tab sz i s files r hs
      rw [h] at hn
      simp at hn
    · rw [hs] at h
      simp only at h
      exact ih _ _ _ _ h k (entryStep_keys_mono fm lu tab sz i s files s1 files1 hs k hk)

/-- Origin of the keys produced by the loop: every key of the final map was
already present, or was stored by some processed slot `j` that is not a
placeholder — under its non-empty manifest name, or (only with
`LoadUnsupported` on) under the synthesized name of an unnamed slot. -/
theorem entryLoop_keys_origin (fm : List String) (lu : Bool) (tab : List Nat) (sz : Nat) :
    ∀ (n i : Nat) (s : ByteStream) (files out : List (String × List Nat)),
      entryLoop fm lu tab sz i n s files = (some out, none) →
      ∀ k, k ∈ out.map Prod.fst →
        k ∈ files.map Prod.fst ∨
        ∃ j, i ≤ j ∧ j < i + n ∧ isPlaceHolder tab (tab.getD j 0) j = false ∧
          ((fm.getD j "" = k ∧ k ≠ "") ∨
           (lu = true ∧ fm.getD j "" = "" ∧ k = "DATA.WAR." ++ toString j)) := by
  intro n
  induction n with
  | zero =>
    intro i s files out h k hk
    rw [entryLoop] at h
    injection h with h1 _
    injection h1 with h1
    exact Or.inl (h1 ▸ hk)
  | succ n ih =>
    intro i s files out h k hk
    rw [entryLoop] at h
    rcases hs : entryStep fm lu tab sz i s files with r | ⟨s1, files1⟩
    · rw [hs] at h
      simp only at h
      have hn := entryStep_error_none fm lu tab sz i s files r hs
      rw [h] at hn
      simp at hn
    · rw [hs] at h
      simp only at h
      rcases ih (i + 1) s1 files1 out h k hk with hk1 | ⟨j, hij, hjn, hj⟩
      · rcases entryStep_ok_cases fm lu tab sz i s files s1 files1 hs
          with he | ⟨hph, data, ⟨hne, hf⟩ | ⟨hlu, hemp, hf⟩⟩
        · exact Or.inl (he ▸ hk1)
        · rw [hf] at hk1
          rcases mapInsert_mem_elim files (fm.getD i "") data k hk1 with hk2 | hk2
          · refine Or.inr ⟨i, Nat.le_refl i, by omega, hph, Or.inl ⟨hk2.symm, ?_⟩⟩
            rw [hk2]
            exact hne
          · exact Or.inl hk2
        · rw [hf] at hk1
          rcases mapInsert_mem_elim files ("DATA.WAR." ++ toString i) data k hk1 with hk2 | hk2
          · exact Or.inr ⟨i, Nat.le_refl i, by omega, hph, Or.inr ⟨hlu, hemp, hk2⟩⟩
          · exact Or.inl hk2
      · exact Or.inr ⟨j, by omega, by omega, hj⟩

/-- With `LoadUnsupported` on, every processed present slot with an empty
manifest name ends up stored under its synthesized name. -/
theorem entryLoop_synth_mem (fm : List String) (tab : List Nat) (sz : Nat) :
    ∀ (n i : Nat) (s : ByteStream) (files out : List (String × List Nat)),
      entryLoop fm true tab sz i n s files = (some out, none) →
      ∀ j, i ≤ j → j < i + n →
        isPlaceHolder tab (tab.getD j 0) j = false → fm.getD j "" = "" →
        ("DATA.WAR." ++ toString j) ∈ out.map Prod.fst := by
  intro n
  induction n with
  | zero =>
    intro i s files out _ j hij hjn _ _
    omega
  | succ n ih =>
    intro i s files out h j hij hjn hph hemp
    rw [entryLoop] at h
    rcases hs : entryStep fm true tab sz i s files with r | ⟨s1, files1⟩
    · rw [hs] at h
      simp only at h
      have hn := entryStep_error_none fm true tab sz i s files r hs
      rw [h] at hn
      simp at hn
    · rw [hs] at h
      simp only at h
      by_cases hji : j = i
      · subst hji
        rcases entryStep_synth fm tab sz j s files s1 files1 hph hemp hs with ⟨data, hf⟩
        refine entryLoop_keys_mono fm true tab sz n (j + 1) s1 files1 out h _ ?_
        rw [hf]
        exact mapInsert_mem_self files _ data
      · exact ih (i + 1) s1 files1 out h j (by omega) (by omega) hph hemp

/-! ### Claim theorems -/

/-- C3: for a 32-bit header word `h`, the entry is classified compressed iff
`h >> 24 = 0x20`, and its decoded size is `h & 0x00FFFFFF`, i.e. `h mod 2^24`
— the 24-bit mask, which differs from the `0x1FFFFFFF` mask mentioned in the
source comment, as the final conjunct witnesses. -/
theorem header_flag_and_size_mask (h : Nat) (hh : h < 4294967296) :
    (entryCompressed h = true ↔ h / 16777216 = 32) ∧
    entrySize h = h % 16777216 ∧
    entrySize 16777216 ≠ Nat.land 16777216 0x1FFFFFFF := by
  refine ⟨?_, ?_, by decide⟩
  · unfold entryCompressed
    rw [Nat.shiftRight_eq_div_pow]
    norm_num
  · unfold entrySize
    have hx := Nat.and_pow_two_sub_one_eq_mod h 24
    norm_num at hx
    exact hx

/-- Witness for C3 at the concrete header word `0x20000005`. -/
theorem header_flag_and_size_mask_witness :
    (entryCompressed 0x20000005 = true ↔ 0x20000005 / 16777216 = 32) ∧
    entrySize 0x20000005 = 0x20000005 % 16777216 ∧
    entrySize 16777216 ≠ Nat.land 16777216 0x1FFFFFFF :=
  header_flag_and_size_mask 0x20000005 (by norm_num)

/-- C4: a slot is a placeholder iff its offset is one of the sentinels `0` or
`0xFFFFFFFF`, or it is not the last slot and its offset equals the next
table offset minus one (uint32 arithmetic); in particular the last slot is
never classified by the next-minus-one rule. -/
theorem isPlaceHolder_classification (tab : List Nat) (i : Nat) (hi : i < tab.length) :
    isPlaceHolder tab (tab.getD i 0) i = true ↔
      (tab.getD i 0 = 0 ∨ tab.getD i 0 = 4294967295 ∨
        (i ≠ tab.length - 1 ∧ tab.getD i 0 = sub32 (tab.getD (i + 1) 0) 1)) := by
  unfold isPlaceHolder
  split_ifs with h1 h2 h3
  · simp only [true_iff]
    rcases h1 with h1 | h1
    · exact Or.inl h1
    · exact Or.inr (Or.inl h1)
  · constructor
    · intro hf; exact absurd hf (by simp)
    · rintro (h | h | ⟨hne, _⟩)
      · exact absurd (Or.inl h) h1
      · exact absurd (Or.inr h) h1
      · exact absurd h2 hne
  · simp only [true_iff]
    exact Or.inr (Or.inr ⟨h2, h3⟩)
  · constructor
    · intro hf; exact absurd hf (by simp)
    · rintro (h | h | ⟨_, heq⟩)
      · exact absurd (Or.inl h) h1
      · exact absurd (Or.inr h) h1
      · exact absurd heq h3

/-- Witness for C4 on the table `[0, 4294967295, 50, 99, 100]`: slot 3 has
offset `99 = 100 - 1` and is a placeholder. -/
theorem isPlaceHolder_classification_witness :
    isPlaceHolder [0, 4294967295, 50, 99, 100] ([0, 4294967295, 50, 99, 100].getD 3 0) 3 = true ↔
      ([0, 4294967295, 50, 99, 100].getD 3 0 = 0 ∨
        [0, 4294967295, 50, 99, 100].getD 3 0 = 4294967295 ∨
        (3 ≠ [0, 4294967295, 50, 99, 100].length - 1 ∧
          [0, 4294967295, 50, 99, 100].getD 3 0 =
            sub32 ([0, 4294967295, 50, 99, 100].getD (3 + 1) 0) 1)) :=
  isPlaceHolder_classification [0, 4294967295, 50, 99, 100] 3 (by norm_num)

/-- C5: the payload length computed by the loader equals
`offset[i+1] - offset[i] - 4` for a non-terminal slot, and
`uint32(sz) - offset[i] - 4` for the terminal slot, as a single unsigned
32-bit expression (written over `Nat` with a `+ 2*2^32` guard against
underflow before the final `mod`). -/
theorem dataLength_formula (tab : List Nat) (sz : Nat) (i : Nat)
    (h0 : tab.getD i 0 < 4294967296) (h1 : tab.getD (i + 1) 0 < 4294967296) :
    (i ≠ tab.length - 1 →
      dataLengthOf tab sz i =
        (tab.getD (i + 1) 0 + 8589934592 - tab.getD i 0 - 4) % 4294967296) ∧
    (i = tab.length - 1 →
      dataLengthOf tab sz i =
        (sz % 4294967296 + 8589934592 - tab.getD i 0 - 4) % 4294967296) := by
  unfold dataLengthOf sub32
  constructor
  · intro hne
    rw [if_neg hne]
    omega
  · intro he
    rw [if_pos he]
    omega

/-- Witness for C5 on the table `[8, 20]` with container size 30: slot 0 is
non-terminal with payload length `20 - 8 - 4`, slot 1 terminal with
`30 - 20 - 4`. -/
theorem dataLength_formula_witness :
    dataLengthOf [8, 20] 30 0
      = ([8, 20].getD 1 0 + 8589934592 - [8, 20].getD 0 0 - 4) % 4294967296 ∧
    dataLengthOf [8, 20] 30 1
      = (30 % 4294967296 + 8589934592 - [8, 20].getD 1 0 - 4) % 4294967296 :=
  ⟨(dataLength_formula [8, 20] 30 0 (by norm_num) (by norm_num)).1 (by norm_num),
    (dataLength_formula [8, 20] 30 1 (by norm_num) (by norm_num)).2 (by norm_num)⟩

/-- C9: when the underlying reader's `Read` returns 0 bytes with a nil
error, `readByte` returns `(0, nil)` — success with a phantom zero byte,
not an error (whatever the untouched buffer byte `v` is, the returned byte
value is the zero value). -/
theorem readByte_zero_read_nil_error (v : Nat) :
    readByteFrom 0 none v = (0, none) := by
  simp [readByteFrom]

/-- C8: `uncompressData` is deterministic — identical input bytes and
identical `(budget, target)` pair give byte-identical results.  In the
embedding this holds because the function is pure: the Go code reads no
package-level state, and the 4096-byte dictionary, the counters and the
backing output buffer are freshly created inside each call (see the
definition of `uncompressData`: the loop starts from the zeroed dictionary
`List.replicate bufferSize 0` and zero counters on every invocation). -/
theorem uncompressData_deterministic (s t : ByteStream) (fileSize dataSize : Nat)
    (hdata : s.data = t.data) (hpos : s.pos = t.pos) :
    (uncompressData s fileSize dataSize).1 = (uncompressData t fileSize dataSize).1 := by
  have hst : s = t := by
    cases s
    cases t
    simp_all
  rw [hst]

/-- Witness for C8: two structurally equal streams decode identically. -/
theorem uncompressData_deterministic_witness :
    (uncompressData ⟨[3, 65, 66], 0⟩ 2 3).1 = (uncompressData ⟨[3, 65, 66], 0⟩ 2 3).1 :=
  uncompressData_deterministic ⟨[3, 65, 66], 0⟩ ⟨[3, 65, 66], 0⟩ 2 3 rfl rfl

/-- C2 (code bug): on a stream whose uncompressed payload is shorter than
the declared size but whose `Read` returns the partial bytes with a nil
error, `OpenArchiveFrom` executes `return nil, err` with `err == nil` and
yields `(nil, nil)` — no archive and no error.  The fixture is a DOS Retail
archive with one file whose header declares 5 uncompressed bytes while only
2 remain. -/
theorem openArchive_short_read_nil_nil :
    OpenArchiveFrom ["A"] false
      ⟨[0x18, 0, 0, 0, 1, 0, 0, 0, 12, 0, 0, 0, 5, 0, 0, 0, 0xAA, 0xBB], 0⟩ 18
      = (none, none) := by
  rfl

/-- C1 (counterexample): decoding the all-zero 17-byte input with target
`fileSize = 2` and budget `dataSize = 1` succeeds (nil error) yet produces
24 bytes, not 2: the first back-reference copies 3 bytes past the target of
2, after which the `numWrite != fileSize` test never fires again and the
remaining 7 bits of the control byte each copy 3 more bytes. -/
theorem uncompress_overshoot_cex :
    (uncompressData ⟨List.replicate 17 0, 0⟩ 2 1).1.2 = none ∧
    (uncompressData ⟨List.replicate 17 0, 0⟩ 2 1).1.1.length ≠ 2 := by
  constructor
  · rfl
  · decide

/-- The copy loop appends exactly `cnt` bytes to the output. -/
theorem copyLoop_out_length (off : Nat) :
    ∀ (cnt m : Nat) (buf : List Nat) (nw : Nat) (out : List Nat),
      (copyLoop off cnt m buf nw out).2.2.length = out.length + cnt := by
  intro cnt
  induction cnt with
  | zero => intro m buf nw out; simp [copyLoop]
  | succ cnt ih =>
    intro m buf nw out
    rw [copyLoop, ih]
    simp
    omega

/-- C1 (amended): the bit-level loop does stop as soon as the write counter
equals the target — entering it with `numWrite = fileSize` performs nothing
— but the inner back-reference copy loop runs all of its `run + 3`
iterations unconditionally, never consulting the target, so a back-reference
can carry the output past `fileSize` (see `uncompress_overshoot_cex`). -/
theorem uncompress_target_checks :
    (∀ (fileSize k cmask : Nat) (st : UState),
      st.numWrite = fileSize → bitLoop fileSize k cmask st = (st, none)) ∧
    (∀ (off cnt m : Nat) (buf : List Nat) (nw : Nat) (out : List Nat),
      (copyLoop off cnt m buf nw out).2.1 = nw + cnt ∧
      (copyLoop off cnt m buf nw out).2.2.length = out.length + cnt) := by
  constructor
  · intro fileSize k cmask st hw
    cases k with
    | zero => rw [bitLoop]
    | succ k => rw [bitLoop, if_pos hw]
  · intro off cnt m buf nw out
    exact ⟨copyLoop_numWrite off cnt m buf nw out, copyLoop_out_length off cnt m buf nw out⟩

/-- Witness for C1 (amended) at concrete inputs: a bit loop entered at the
target does nothing, and a 3-byte copy writes exactly 3 bytes. -/
theorem uncompress_target_checks_witness :
    bitLoop 5 8 0 ⟨⟨[], 0⟩, [], 5, 0, []⟩ = (⟨⟨[], 0⟩, [], 5, 0, []⟩, none) ∧
    (copyLoop 0 3 0 [] 0 []).2.1 = 0 + 3 ∧
    (copyLoop 0 3 0 [] 0 []).2.2.length = ([] : List Nat).length + 3 :=
  ⟨uncompress_target_checks.1 5 8 0 ⟨⟨[], 0⟩, [], 5, 0, []⟩ rfl,
    uncompress_target_checks.2 0 3 0 [] 0 []⟩

/-- C6: each of the four known magics gets its matching variant label; any
other 4-byte value fails with `unknown version`; the two Mac magics are
labelled but fail with `ErrUnsupportedVersion`, and on a Mac-magic stream
`OpenArchiveFrom` stops at variant detection with that error, whatever
follows the magic. -/
theorem variant_detection :
    detectVariant dosRetail = ("DOS Retail", none) ∧
    detectVariant dosShareware = ("DOS Shareware", none) ∧
    detectVariant macRetail = ("Mac Retail", some GoError.unsupportedVersion) ∧
    detectVariant macShareware = ("Mac Shareware", some GoError.unsupportedVersion) ∧
    (∀ m : List Nat, m.length = 4 → m ≠ dosRetail → m ≠ dosShareware → m ≠ macRetail →
      m ≠ macShareware → detectVariant m = ("", some GoError.unknownVersion)) ∧
    (∀ (rest : List Nat) (fm : List String) (lu : Bool) (sz : Nat),
      OpenArchiveFrom fm lu ⟨macRetail ++ rest, 0⟩ sz = (none, some GoError.unsupportedVersion)) ∧
    (∀ (rest : List Nat) (fm : List String) (lu : Bool) (sz : Nat),
      OpenArchiveFrom fm lu ⟨macShareware ++ rest, 0⟩ sz
        = (none, some GoError.unsupportedVersion)) := by
  refine ⟨by decide, by decide, by decide, by decide, ?_, ?_, ?_⟩
  · intro m _ h1 h2 h3 h4
    unfold detectVariant
    rw [if_neg h1, if_neg h2, if_neg h3, if_neg h4]
  · intro rest fm lu sz
    have hsr : streamRead ⟨macRetail ++ rest, 0⟩ 4
        = (macRetail, none, ⟨macRetail ++ rest, 0 + macRetail.length⟩) := by
      unfold streamRead
      rw [if_neg (by simp [macRetail])]
      have ht : ((macRetail ++ rest).drop 0).take 4 = macRetail := by
        rw [List.drop_zero, show (4 : Nat) = macRetail.length from rfl, List.take_left]
      simp only [ht]
    unfold OpenArchiveFrom readArchiveHeader
    rw [hsr]
    simp only
    rw [show macRetail ++ List.replicate (4 - macRetail.length) 0 = macRetail by decide]
    rw [show detectVariant macRetail = ("Mac Retail", some GoError.unsupportedVersion) by decide]
  · intro rest fm lu sz
    have hsr : streamRead ⟨macShareware ++ rest, 0⟩ 4
        = (macShareware, none, ⟨macShareware ++ rest, 0 + macShareware.length⟩) := by
      unfold streamRead
      rw [if_neg (by simp [macShareware])]
      have ht : ((macShareware ++ rest).drop 0).take 4 = macShareware := by
        rw [List.drop_zero, show (4 : Nat) = macShareware.length from rfl, List.take_left]
      simp only [ht]
    unfold OpenArchiveFrom readArchiveHeader
    rw [hsr]
    simp only
    rw [show macShareware ++ List.replicate (4 - macShareware.length) 0 = macShareware by decide]
    rw [show detectVariant macShareware = ("Mac Shareware", some GoError.unsupportedVersion)
      by decide]

/-- Witness for C6: an unrecognised magic fails with `unknown version`, and
a Mac Retail stream is rejected as unsupported before any table is read. -/
theorem variant_detection_witness :
    detectVariant [9, 9, 9, 9] = ("", some GoError.unknownVersion) ∧
    OpenArchiveFrom [] false ⟨macRetail ++ [7, 7], 0⟩ 6
      = (none, some GoError.unsupportedVersion) :=
  ⟨variant_detection.2.2.2.2.1 [9, 9, 9, 9] rfl (by decide) (by decide) (by decide) (by decide),
    variant_detection.2.2.2.2.2.1 [7, 7] [] false 6⟩

/-- C10: after a successful load every key of the resulting `Files` map
comes from a slot that is not a placeholder — it is that slot's non-empty
manifest name, or (only when `LoadUnsupported` is on) the synthesized name
`DATA.WAR.<slot index>` of a slot with an empty manifest name; placeholder
slots contribute nothing.  The file table is the one parsed from the stream
by `readArchiveHeader`. -/
theorem archive_keys_from_present_slots (fm : List String) (lu : Bool) (s : ByteStream)
    (sz : Nat) (arch : Archive)
    (h : OpenArchiveFrom fm lu s sz = (some arch, none)) :
    ∃ vtype tab s3, readArchiveHeader fm s = .ok (vtype, tab, s3) ∧
      ∀ k, k ∈ arch.files.map Prod.fst →
        ∃ j, j < tab.length ∧ isPlaceHolder tab (tab.getD j 0) j = false ∧
          ((fm.getD j "" = k ∧ k ≠ "") ∨
           (lu = true ∧ fm.getD j "" = "" ∧ k = "DATA.WAR." ++ toString j)) := by
  unfold OpenArchiveFrom at h
  rcases hh : readArchiveHeader fm s with e | ⟨vtype, tab, s3⟩
  · rw [hh] at h
    simp at h
  · rw [hh] at h
    simp only at h
    rcases hel : entryLoop fm lu tab sz 0 tab.length s3 [] with ⟨ofiles, err⟩
    rw [hel] at h
    rcases ofiles with _ | files
    · simp at h
    · rcases err with _ | e
      · simp only at h
        injection h with h1 _
        injection h1 with h1
        refine ⟨vtype, tab, s3, rfl, ?_⟩
        intro k hk
        rw [← h1] at hk
        simp only at hk
        rcases entryLoop_keys_origin fm lu tab sz tab.length 0 s3 [] files hel k hk
          with h2 | ⟨j, _, hj2, hj3, hj4⟩
        · simp at h2
        · exact ⟨j, by omega, hj3, hj4⟩
      · simp at h

/-- Witness for C10 on a one-file DOS Retail fixture that loads
successfully with the flag off. -/
theorem archive_keys_from_present_slots_witness :
    ∃ vtype tab s3,
      readArchiveHeader ["A"]
        ⟨[0x18, 0, 0, 0, 1, 0, 0, 0, 12, 0, 0, 0, 5, 0, 0, 0, 1, 2, 3, 4, 5], 0⟩
        = .ok (vtype, tab, s3) ∧
      ∀ k, k ∈ (Archive.mk "DOS Retail" [("A", [1, 2, 3, 4, 5])]).files.map Prod.fst →
        ∃ j, j < tab.length ∧ isPlaceHolder tab (tab.getD j 0) j = false ∧
          ((["A"].getD j "" = k ∧ k ≠ "") ∨
           (false = true ∧ ["A"].getD j "" = "" ∧ k = "DATA.WAR." ++ toString j)) :=
  archive_keys_from_present_slots ["A"] false
    ⟨[0x18, 0, 0, 0, 1, 0, 0, 0, 12, 0, 0, 0, 5, 0, 0, 0, 1, 2, 3, 4, 5], 0⟩ 21
    (Archive.mk "DOS Retail" [("A", [1, 2, 3, 4, 5])]) (by rfl)

/-- C7: handling of present slots whose manifest name is empty.  With
`LoadUnsupported` off, such slots are skipped: every key of the resulting
map is a non-empty manifest name (so the unnamed slot contributes no entry).
With the flag on, every processed present unnamed slot is stored under the
synthesized index-derived name `DATA.WAR.<i>`, and — since no name of the
(spec-modelled) manifest starts with `DATA.WAR.` — that name differs from
every manifest name. -/
theorem empty_name_slot_handling (fm : List String) (tab : List Nat) (sz : Nat)
    (s : ByteStream) (out : List (String × List Nat)) :
    (entryLoop fm false tab sz 0 tab.length s [] = (some out, none) →
      ∀ k, k ∈ out.map Prod.fst → k ≠ "" ∧ k ∈ fm) ∧
    (∀ i, entryLoop fm true tab sz 0 tab.length s [] = (some out, none) →
      i < tab.length → isPlaceHolder tab (tab.getD i 0) i = false →
      fm.getD i "" = "" →
      ("DATA.WAR." ++ toString i) ∈ out.map Prod.fst ∧
      ((∀ x ∈ fm, ¬ List.IsPrefix "DATA.WAR.".data x.data) →
        ("DATA.WAR." ++ toString i) ∉ fm)) := by
  constructor
  · intro h k hk
    rcases entryLoop_keys_origin fm false tab sz tab.length 0 s [] out h k hk
      with h1 | ⟨j, _, _, _, ⟨hg, hne⟩ | ⟨hlu, _, _⟩⟩
    · simp at h1
    · refine ⟨hne, ?_⟩
      by_cases hj : j < fm.length
      · rw [List.getD_eq_getElem fm "" hj] at hg
        exact hg ▸ List.getElem_mem hj
      · rw [List.getD_eq_default fm "" (by omega)] at hg
        exact absurd hg.symm hne
    · exact absurd hlu (by simp)
  · intro i h hi hph hemp
    refine ⟨entryLoop_synth_mem fm tab sz tab.length 0 s [] out h i (by omega) (by omega)
      hph hemp, ?_⟩
    intro hnopre hmem
    refine hnopre _ hmem ?_
    rw [String.data_append]
    exact ⟨(toString i).data, rfl⟩

/-- Witness for C7 on a two-slot fixture whose slot 0 has no manifest name:
with the flag off the loop result holds only the named entry "B"; with the
flag on slot 0 appears under `DATA.WAR.0`, which no manifest name matches. -/
theorem empty_name_slot_handling_witness :
    (∀ k, k ∈ [("B", [7, 8, 9])].map Prod.fst → k ≠ "" ∧ k ∈ ["", "B"]) ∧
    ("DATA.WAR." ++ toString 0) ∈
      [("DATA.WAR.0", [1, 2, 3, 4, 5]), ("B", [7, 8, 9])].map Prod.fst ∧
    ((∀ x ∈ ["", "B"], ¬ List.IsPrefix "DATA.WAR.".data x.data) →
      ("DATA.WAR." ++ toString 0) ∉ ["", "B"]) :=
  ⟨(empty_name_slot_handling ["", "B"] [16, 25] 32
      ⟨[0x18, 0, 0, 0, 2, 0, 0, 0, 16, 0, 0, 0, 25, 0, 0, 0, 5, 0, 0, 0, 1,
        2, 3, 4, 5, 3, 0, 0, 0, 7, 8, 9], 16⟩ [("B", [7, 8, 9])]).1 (by rfl),
    (empty_name_slot_handling ["", "B"] [16, 25] 32
      ⟨[0x18, 0, 0, 0, 2, 0, 0, 0, 16, 0, 0, 0, 25, 0, 0, 0, 5, 0, 0, 0, 1,
        2, 3, 4, 5, 3, 0, 0, 0, 7, 8, 9], 16⟩
      [("DATA.WAR.0", [1, 2, 3, 4, 5]), ("B", [7, 8, 9])]).2 0 (by rfl)
      (by decide) (by decide) (by decide)⟩
